import Mathlib

/-
Shallow embedding of the planet simulation from src/main.rs.

The Rust program computes with f64.  We model an f64 value as an element of
the type FP below: either a finite ideal real number, NaN, or one of the two
infinities.  Arithmetic follows the IEEE-754 special-value rules (NaN
propagation, infinity arithmetic, division by zero), while finite-by-finite
arithmetic is exact real arithmetic: the model has no rounding and no
overflow of finite results.  atan2 is modelled by the complex argument
(Complex.arg ⟨x, y⟩ is atan2 y x), which agrees with f64::atan2 everywhere
reals can express the inputs (signed zeros are not distinguished).
-/

namespace PlanetSim

inductive FP : Type
  | num : ℝ → FP
  | nan : FP
  | inf : FP
  | ninf : FP

namespace FP

noncomputable def add : FP → FP → FP
  | nan, _ => nan
  | _, nan => nan
  | inf, ninf => nan
  | ninf, inf => nan
  | inf, _ => inf
  | _, inf => inf
  | ninf, _ => ninf
  | _, ninf => ninf
  | num a, num b => num (a + b)

noncomputable def neg : FP → FP
  | nan => nan
  | inf => ninf
  | ninf => inf
  | num a => num (-a)

noncomputable def sub (a b : FP) : FP := a.add b.neg

noncomputable def mul : FP → FP → FP
  | nan, _ => nan
  | _, nan => nan
  | inf, inf => inf
  | inf, ninf => ninf
  | ninf, inf => ninf
  | ninf, ninf => inf
  | inf, num b => if b = 0 then nan else if 0 < b then inf else ninf
  | num a, inf => if a = 0 then nan else if 0 < a then inf else ninf
  | ninf, num b => if b = 0 then nan else if 0 < b then ninf else inf
  | num a, ninf => if a = 0 then nan else if 0 < a then ninf else inf
  | num a, num b => num (a * b)

noncomputable def div : FP → FP → FP
  | nan, _ => nan
  | _, nan => nan
  | inf, inf => nan
  | inf, ninf => nan
  | ninf, inf => nan
  | ninf, ninf => nan
  | num _, inf => num 0
  | num _, ninf => num 0
  | inf, num b => if 0 ≤ b then inf else ninf
  | ninf, num b => if 0 ≤ b then ninf else inf
  | num a, num b =>
      if b = 0 then (if a = 0 then nan else if 0 < a then inf else ninf)
      else num (a / b)

noncomputable def sqrt : FP → FP
  | nan => nan
  | inf => inf
  | ninf => nan
  | num a => if a < 0 then nan else num (Real.sqrt a)

/-- Model of f64::powi(2): the value multiplied by itself. -/
noncomputable def sq (a : FP) : FP := a.mul a

noncomputable def cos : FP → FP
  | num a => num (Real.cos a)
  | _ => nan

noncomputable def sin : FP → FP
  | num a => num (Real.sin a)
  | _ => nan

/-- Model of y.atan2(x) for f64, via the complex argument.  The infinite
cases follow IEEE-754 atan2; where IEEE distinguishes the sign of a zero,
the real 0 takes the positive-zero behavior. -/
noncomputable def atan2 : FP → FP → FP
  | nan, _ => nan
  | _, nan => nan
  | num b, num a => num (Complex.arg ⟨a, b⟩)
  | inf, inf => num (Real.pi / 4)
  | inf, ninf => num (3 * Real.pi / 4)
  | ninf, inf => num (-(Real.pi / 4))
  | ninf, ninf => num (-(3 * Real.pi / 4))
  | inf, num _ => num (Real.pi / 2)
  | ninf, num _ => num (-(Real.pi / 2))
  | num _, inf => num 0
  | num b, ninf => if 0 ≤ b then num Real.pi else num (-Real.pi)

/-- Model of f64::mul_add(a, b, c) = a * b + c.  The model has no rounding,
so the fused operation coincides with multiply-then-add; the IEEE
special-value behavior also coincides. -/
noncomputable def mulAdd (a b c : FP) : FP := (a.mul b).add c

def isFinite : FP → Bool
  | num _ => true
  | _ => false

@[simp] theorem add_num (a b : ℝ) : add (num a) (num b) = num (a + b) := rfl

@[simp] theorem neg_num (a : ℝ) : neg (num a) = num (-a) := rfl

@[simp] theorem sub_num (a b : ℝ) : sub (num a) (num b) = num (a + -b) := rfl

@[simp] theorem mul_num (a b : ℝ) : mul (num a) (num b) = num (a * b) := rfl

@[simp] theorem sq_num (a : ℝ) : sq (num a) = num (a * a) := rfl

theorem div_num {a b : ℝ} (hb : b ≠ 0) :
    div (num a) (num b) = num (a / b) := by
  simp [div, hb]

@[simp] theorem sqrt_num_of_nonneg {a : ℝ} (ha : 0 ≤ a) :
    sqrt (num a) = num (Real.sqrt a) := by
  simp [sqrt, not_lt.mpr ha]

@[simp] theorem cos_num (a : ℝ) : cos (num a) = num (Real.cos a) := rfl

@[simp] theorem sin_num (a : ℝ) : sin (num a) = num (Real.sin a) := rfl

@[simp] theorem atan2_num (b a : ℝ) :
    atan2 (num b) (num a) = num (Complex.arg ⟨a, b⟩) := rfl

@[simp] theorem mulAdd_num (a b c : ℝ) :
    mulAdd (num a) (num b) (num c) = num (a * b + c) := rfl

@[simp] theorem isFinite_num (a : ℝ) : isFinite (num a) = true := rfl

@[simp] theorem isFinite_nan : isFinite nan = false := rfl

@[simp] theorem isFinite_inf : isFinite inf = false := rfl

@[simp] theorem isFinite_ninf : isFinite ninf = false := rfl

@[simp] theorem add_num_inf (a : ℝ) : add (num a) inf = inf := rfl

@[simp] theorem add_inf_num (a : ℝ) : add inf (num a) = inf := rfl

@[simp] theorem add_nan_left (a : FP) : add nan a = nan := by
  cases a <;> rfl

theorem add_nan_right (a : FP) : add a nan = nan := by
  cases a <;> rfl

end FP

/-- CONSTANT G from src/main.rs: the gravitational constant. -/
noncomputable def G : ℝ := 6.67428e-11

/-- CONSTANT SOFTENING_FACTOR from src/main.rs. -/
noncomputable def SOFTENING_FACTOR : ℝ := 1.0e9

/-- CONSTANT TIMESTEP from src/main.rs: one day in seconds. -/
noncomputable def TIMESTEP : ℝ := 3600.0 * 24.0

/-- CONSTANT AU from src/main.rs. -/
noncomputable def AU : ℝ := 149.6e6 * 1000.0

/-- The Planet struct of src/main.rs.  Field names and order follow the
source; color is a u32 used only for rendering. -/
structure Planet where
  x : FP
  y : FP
  radius : FP
  color : ℕ
  mass : FP
  orbit : List (FP × FP)
  sun : Bool
  distance_to_sun : FP
  x_vel : FP
  y_vel : FP

instance : Inhabited Planet :=
  ⟨{ x := FP.nan, y := FP.nan, radius := FP.nan, color := 0, mass := FP.nan,
     orbit := [], sun := false, distance_to_sun := FP.nan,
     x_vel := FP.nan, y_vel := FP.nan }⟩

/-- Planet::calculate_force from src/main.rs, lines 160-175. -/
noncomputable def calculate_force (self other : Planet) : FP × FP × FP :=
  let distance_x := other.x.sub self.x
  let distance_y := other.y.sub self.y
  let distance_squared :=
    (distance_x.sq.add distance_y.sq).add (FP.num SOFTENING_FACTOR).sq
  let distance := distance_squared.sqrt
  let force :=
    (((FP.num G).mul self.mass).mul other.mass).div distance.sq
  let theta := distance_y.atan2 distance_x
  let force_x := theta.cos.mul force
  let force_y := theta.sin.mul force
  (force_x, force_y, distance)

/-- One iteration of the force-accumulation loop in Planet::update_position
(src/main.rs lines 107-125).  The accumulator is
(total_force_x, total_force_y, distance_to_sun).  A pair whose force
components are not both finite is discarded; otherwise the forces are summed
and, if the other body is the sun, distance_to_sun is overwritten with this
pair's distance. -/
noncomputable def accumStep (self : Planet) (acc : FP × FP × FP) (other : Planet) :
    FP × FP × FP :=
  let r := calculate_force self other
  if r.1.isFinite && r.2.1.isFinite then
    (acc.1.add r.1, acc.2.1.add r.2.1, if other.sun then r.2.2 else acc.2.2)
  else acc

/-- The whole force-accumulation loop of Planet::update_position.  In main
the slice passed in never contains the planet being updated (`others` is
built from the clone with index i removed), and the pointer-identity test
`self as *const _ != other` is then always true since `others` holds clones;
so the loop body runs for every element of the list. -/
noncomputable def accumulate (self : Planet) (planets : List Planet) : FP × FP × FP :=
  planets.foldl (accumStep self) (FP.num 0, FP.num 0, self.distance_to_sun)

/-- Planet::update_position from src/main.rs, lines 100-157, as a function
from the entry state of the planet and the list of other planets (the
entry-time snapshot minus the planet itself) to the planet's exit state.
The println/eprintln diagnostics have no effect on state and are dropped. -/
noncomputable def update_position (self : Planet) (planets : List Planet) : Planet :=
  let acc := accumulate self planets
  let xv := self.x_vel.add ((acc.1.div self.mass).mul (FP.num TIMESTEP))
  let yv := self.y_vel.add ((acc.2.1.div self.mass).mul (FP.num TIMESTEP))
  let self1 : Planet :=
    { self with distance_to_sun := acc.2.2, x_vel := xv, y_vel := yv }
  if !xv.isFinite || !yv.isFinite then self1
  else
    let new_x := xv.mulAdd (FP.num TIMESTEP) self.x
    let new_y := yv.mulAdd (FP.num TIMESTEP) self.y
    let self2 :=
      if new_x.isFinite && new_y.isFinite then
        { self1 with x := new_x, y := new_y }
      else self1
    { self2 with orbit := self2.orbit ++ [(self2.x, self2.y)] }

/-- The slice of all planets except the one at index i, as built in main:
[&planets_clone[..i], &planets_clone[i + 1..]].concat(). -/
def othersOf (ps : List Planet) (i : ℕ) : List Planet :=
  ps.take i ++ ps.drop (i + 1)

/-- One pass of the main simulation loop over the planets (src/main.rs lines
357-368): each planet is updated in place against the entry snapshot
planets_clone.  Because every planet is written exactly once and its own
entry state is read before it is written, the result is the indexed map
below. -/
noncomputable def step (ps : List Planet) : List Planet :=
  (List.range ps.length).map (fun i => update_position (ps.getD i default) (othersOf ps i))

/-- The main loop with the bodies processed in an arbitrary order of
indices: the mutable planets vector is threaded through, each visited index
is overwritten with the update of its current state against the entry
snapshot ps.  Visiting indices in increasing order gives exactly the
program's loop. -/
noncomputable def stepOrder (ps : List Planet) (order : List ℕ) : List Planet :=
  order.foldl
    (fun acc i => acc.set i (update_position (acc.getD i default) (othersOf ps i))) ps

/-- n iterations of step. -/
noncomputable def stepN : ℕ → List Planet → List Planet
  | 0, ps => ps
  | n + 1, ps => step (stepN n ps)

/-- All physical state of a planet is a finite number and its mass is
nonzero: the no-degeneracy condition. -/
def finitePlanet (p : Planet) : Prop :=
  (∃ a, p.x = FP.num a) ∧ (∃ a, p.y = FP.num a) ∧
  (∃ a, p.x_vel = FP.num a) ∧ (∃ a, p.y_vel = FP.num a) ∧
  (∃ m, p.mass = FP.num m ∧ m ≠ 0)

def allFinite (ps : List Planet) : Prop := ∀ p ∈ ps, finitePlanet p

/-- Real-level atan2: atan2R y x is the angle of the point (x, y). -/
noncomputable def atan2R (y x : ℝ) : ℝ := Complex.arg ⟨x, y⟩

/-- Evaluation of calculate_force when both planets have finite positions
and masses: every component is a finite number with the closed-form payload
read off from the source. -/
theorem calculate_force_num (self other : Planet) (xi yi mi xo yo mo : ℝ)
    (hx : self.x = FP.num xi) (hy : self.y = FP.num yi) (hm : self.mass = FP.num mi)
    (hox : other.x = FP.num xo) (hoy : other.y = FP.num yo) (hmo : other.mass = FP.num mo) :
    calculate_force self other =
      (FP.num (Real.cos (atan2R (yo - yi) (xo - xi)) *
         (G * mi * mo /
           (Real.sqrt ((xo - xi) * (xo - xi) + (yo - yi) * (yo - yi) +
             SOFTENING_FACTOR * SOFTENING_FACTOR) ^ 2))),
       FP.num (Real.sin (atan2R (yo - yi) (xo - xi)) *
         (G * mi * mo /
           (Real.sqrt ((xo - xi) * (xo - xi) + (yo - yi) * (yo - yi) +
             SOFTENING_FACTOR * SOFTENING_FACTOR) ^ 2))),
       FP.num (Real.sqrt ((xo - xi) * (xo - xi) + (yo - yi) * (yo - yi) +
         SOFTENING_FACTOR * SOFTENING_FACTOR))) := by
  have hS : (0 : ℝ) < SOFTENING_FACTOR := by norm_num [SOFTENING_FACTOR]
  have hd2 : (0 : ℝ) < (xo - xi) * (xo - xi) + (yo - yi) * (yo - yi) +
      SOFTENING_FACTOR * SOFTENING_FACTOR := by
    nlinarith [mul_self_nonneg (xo - xi), mul_self_nonneg (yo - yi)]
  have hs0 : (0 : ℝ) < Real.sqrt ((xo - xi) * (xo - xi) + (yo - yi) * (yo - yi) +
      SOFTENING_FACTOR * SOFTENING_FACTOR) := Real.sqrt_pos.mpr hd2
  have hss : Real.sqrt ((xo - xi) * (xo - xi) + (yo - yi) * (yo - yi) +
      SOFTENING_FACTOR * SOFTENING_FACTOR) *
      Real.sqrt ((xo - xi) * (xo - xi) + (yo - yi) * (yo - yi) +
      SOFTENING_FACTOR * SOFTENING_FACTOR) ≠ 0 := (mul_pos hs0 hs0).ne'
  simp only [calculate_force, hx, hy, hm, hox, hoy, hmo, FP.sub_num, FP.sq_num,
    FP.add_num, ← sub_eq_add_neg]
  rw [FP.sqrt_num_of_nonneg hd2.le]
  simp only [FP.sq_num, FP.mul_num]
  rw [FP.div_num hss]
  simp only [FP.atan2_num, FP.cos_num, FP.sin_num, FP.mul_num]
  refine Prod.ext ?_ (Prod.ext ?_ rfl) <;>
    simp only [atan2R, pow_two]

/-- C1: for every ordered pair of bodies (i, j) with finite positions and
masses, calculate_force(i, j) returns Fx = F * cos theta, Fy = F * sin theta
and distance = sqrt(dx^2 + dy^2 + s^2), where dx = j.x - i.x, dy = j.y - i.y,
s = SOFTENING_FACTOR = 1.0e9, theta = atan2(dy, dx), and
F = G * mass_i * mass_j / (sqrt(dx^2 + dy^2 + s^2))^2 with G = 6.67428e-11:
the divisor is the square of the softened distance. -/
theorem c1_calculate_force_formula (self other : Planet) (xi yi mi xo yo mo : ℝ)
    (hx : self.x = FP.num xi) (hy : self.y = FP.num yi) (hm : self.mass = FP.num mi)
    (hox : other.x = FP.num xo) (hoy : other.y = FP.num yo) (hmo : other.mass = FP.num mo) :
    calculate_force self other =
      (FP.num (G * mi * mo /
          Real.sqrt ((xo - xi) ^ 2 + (yo - yi) ^ 2 + SOFTENING_FACTOR ^ 2) ^ 2 *
          Real.cos (atan2R (yo - yi) (xo - xi))),
       FP.num (G * mi * mo /
          Real.sqrt ((xo - xi) ^ 2 + (yo - yi) ^ 2 + SOFTENING_FACTOR ^ 2) ^ 2 *
          Real.sin (atan2R (yo - yi) (xo - xi))),
       FP.num (Real.sqrt ((xo - xi) ^ 2 + (yo - yi) ^ 2 + SOFTENING_FACTOR ^ 2)))
      ∧ G = 6.67428e-11 ∧ SOFTENING_FACTOR = 1.0e9 := by
  have e : (xo - xi) ^ 2 + (yo - yi) ^ 2 + SOFTENING_FACTOR ^ 2 =
      (xo - xi) * (xo - xi) + (yo - yi) * (yo - yi) +
      SOFTENING_FACTOR * SOFTENING_FACTOR := by ring
  refine ⟨?_, by norm_num [G], by norm_num [SOFTENING_FACTOR]⟩
  rw [calculate_force_num self other xi yi mi xo yo mo hx hy hm hox hoy hmo, e]
  exact Prod.ext (congrArg FP.num (by ring))
    (Prod.ext (congrArg FP.num (by ring)) rfl)

/-- A concrete test body at the origin with mass 2. -/
def pA : Planet :=
  { x := FP.num 0, y := FP.num 0, radius := FP.num 1, color := 0,
    mass := FP.num 2, orbit := [], sun := false, distance_to_sun := FP.num 0,
    x_vel := FP.num 0, y_vel := FP.num 0 }

/-- A concrete test body at (3, 4) with mass 3. -/
def pB : Planet :=
  { x := FP.num 3, y := FP.num 4, radius := FP.num 1, color := 1,
    mass := FP.num 3, orbit := [], sun := false, distance_to_sun := FP.num 0,
    x_vel := FP.num 0, y_vel := FP.num 0 }

/-- Witness for C1 at the concrete pair pA, pB. -/
theorem c1_calculate_force_formula_witness :
    (pA.x = FP.num 0 ∧ pA.y = FP.num 0 ∧ pA.mass = FP.num 2 ∧
     pB.x = FP.num 3 ∧ pB.y = FP.num 4 ∧ pB.mass = FP.num 3) ∧
    (calculate_force pA pB =
      (FP.num (G * 2 * 3 /
          Real.sqrt ((3 - 0) ^ 2 + (4 - 0) ^ 2 + SOFTENING_FACTOR ^ 2) ^ 2 *
          Real.cos (atan2R (4 - 0) (3 - 0))),
       FP.num (G * 2 * 3 /
          Real.sqrt ((3 - 0) ^ 2 + (4 - 0) ^ 2 + SOFTENING_FACTOR ^ 2) ^ 2 *
          Real.sin (atan2R (4 - 0) (3 - 0))),
       FP.num (Real.sqrt ((3 - 0) ^ 2 + (4 - 0) ^ 2 + SOFTENING_FACTOR ^ 2)))
      ∧ G = 6.67428e-11 ∧ SOFTENING_FACTOR = 1.0e9) :=
  ⟨⟨rfl, rfl, rfl, rfl, rfl, rfl⟩,
   c1_calculate_force_formula pA pB 0 0 2 3 4 3 rfl rfl rfl rfl rfl rfl⟩

/-- A concrete test body at the origin with mass 3 (coincident with pA). -/
def pC : Planet :=
  { x := FP.num 0, y := FP.num 0, radius := FP.num 1, color := 2,
    mass := FP.num 3, orbit := [], sun := false, distance_to_sun := FP.num 0,
    x_vel := FP.num 0, y_vel := FP.num 0 }

theorem mk_eq_zero_iff (x y : ℝ) : (⟨x, y⟩ : ℂ) = 0 ↔ x = 0 ∧ y = 0 := by
  simp [Complex.ext_iff]

theorem mk_neg (x y : ℝ) : (⟨-x, -y⟩ : ℂ) = -(⟨x, y⟩ : ℂ) := by
  apply Complex.ext <;> simp

theorem cos_atan2R_neg (y x : ℝ) (h : ¬(x = 0 ∧ y = 0)) :
    Real.cos (atan2R (-y) (-x)) = -Real.cos (atan2R y x) := by
  have hz : (⟨x, y⟩ : ℂ) ≠ 0 := fun hc => h ((mk_eq_zero_iff x y).mp hc)
  unfold atan2R
  rw [mk_neg, Complex.cos_arg (neg_ne_zero.mpr hz), Complex.cos_arg hz,
    Complex.neg_re, map_neg_eq_map, neg_div]

theorem sin_atan2R_neg (y x : ℝ) :
    Real.sin (atan2R (-y) (-x)) = -Real.sin (atan2R y x) := by
  unfold atan2R
  rw [mk_neg, Complex.sin_arg, Complex.sin_arg, Complex.neg_im,
    map_neg_eq_map, neg_div]

/-- C8, amended: for every pair of bodies with finite positions and masses
that are NOT at coincident positions, the force components of
calculate_force(A, B) are the exact negations of those of
calculate_force(B, A).  (At coincident positions both calls return the same
positive x-component, see the counterexample.) -/
theorem c8_force_antisymmetry (self other : Planet) (xi yi mi xo yo mo : ℝ)
    (hx : self.x = FP.num xi) (hy : self.y = FP.num yi) (hm : self.mass = FP.num mi)
    (hox : other.x = FP.num xo) (hoy : other.y = FP.num yo) (hmo : other.mass = FP.num mo)
    (hne : ¬(xo = xi ∧ yo = yi)) :
    (calculate_force self other).1 = FP.neg (calculate_force other self).1 ∧
    (calculate_force self other).2.1 = FP.neg (calculate_force other self).2.1 := by
  have hsub : ¬(xo - xi = 0 ∧ yo - yi = 0) := by
    intro hc
    exact hne ⟨sub_eq_zero.mp hc.1, sub_eq_zero.mp hc.2⟩
  have h1 := calculate_force_num self other xi yi mi xo yo mo hx hy hm hox hoy hmo
  have h2 := calculate_force_num other self xo yo mo xi yi mi hox hoy hmo hx hy hm
  have ex : xi - xo = -(xo - xi) := by ring
  have ey : yi - yo = -(yo - yi) := by ring
  have ed : (xi - xo) * (xi - xo) + (yi - yo) * (yi - yo) +
      SOFTENING_FACTOR * SOFTENING_FACTOR =
      (xo - xi) * (xo - xi) + (yo - yi) * (yo - yi) +
      SOFTENING_FACTOR * SOFTENING_FACTOR := by ring
  rw [h1, h2]
  constructor
  · show FP.num _ = FP.neg (FP.num _)
    rw [FP.neg_num]
    refine congrArg FP.num ?_
    rw [ed, ex, ey, cos_atan2R_neg (yo - yi) (xo - xi) hsub]
    ring
  · show FP.num _ = FP.neg (FP.num _)
    rw [FP.neg_num]
    refine congrArg FP.num ?_
    rw [ed, ex, ey, sin_atan2R_neg (yo - yi) (xo - xi)]
    ring

/-- Witness for the amended C8 at the concrete distinct pair pA, pB. -/
theorem c8_force_antisymmetry_witness :
    (pA.x = FP.num 0 ∧ pA.y = FP.num 0 ∧ pA.mass = FP.num 2 ∧
     pB.x = FP.num 3 ∧ pB.y = FP.num 4 ∧ pB.mass = FP.num 3 ∧
     ¬((3 : ℝ) = 0 ∧ (4 : ℝ) = 0)) ∧
    ((calculate_force pA pB).1 = FP.neg (calculate_force pB pA).1 ∧
     (calculate_force pA pB).2.1 = FP.neg (calculate_force pB pA).2.1) :=
  ⟨⟨rfl, rfl, rfl, rfl, rfl, rfl, by norm_num⟩,
   c8_force_antisymmetry pA pB 0 0 2 3 4 3 rfl rfl rfl rfl rfl rfl (by norm_num)⟩

/-- Counterexample to C8 as stated: for the coincident bodies pA (mass 2)
and pC (mass 3), both at the origin, calculate_force returns the same
strictly positive x-component in both directions (theta = atan2(0,0) = 0),
so Fx(A,C) is not the negation of Fx(C,A). -/
theorem c8_counterexample :
    ¬((calculate_force pA pC).1 = FP.neg (calculate_force pC pA).1) := by
  have h1 := calculate_force_num pA pC 0 0 2 0 0 3 rfl rfl rfl rfl rfl rfl
  have h2 := calculate_force_num pC pA 0 0 3 0 0 2 rfl rfl rfl rfl rfl rfl
  have hz : ((⟨(0 : ℝ) - 0, (0 : ℝ) - 0⟩ : ℂ)) = 0 := by
    simp [Complex.ext_iff]
  have ha : atan2R ((0 : ℝ) - 0) ((0 : ℝ) - 0) = 0 := by
    unfold atan2R
    rw [hz, Complex.arg_zero]
  have hS : (0 : ℝ) ≤ SOFTENING_FACTOR := by norm_num [SOFTENING_FACTOR]
  have hsq : ((0 : ℝ) - 0) * ((0 : ℝ) - 0) + ((0 : ℝ) - 0) * ((0 : ℝ) - 0) +
      SOFTENING_FACTOR * SOFTENING_FACTOR =
      SOFTENING_FACTOR * SOFTENING_FACTOR := by ring
  have hsqrt : Real.sqrt (SOFTENING_FACTOR * SOFTENING_FACTOR) =
      SOFTENING_FACTOR := Real.sqrt_mul_self hS
  rw [h1, h2]
  show ¬(FP.num _ = FP.neg (FP.num _))
  rw [FP.neg_num]
  intro hc
  have hval := FP.num.inj hc
  rw [ha, hsq, hsqrt, Real.cos_zero] at hval
  norm_num [G, SOFTENING_FACTOR] at hval

/-- The x-velocity committed by update_position:
x_vel += total_force_x / mass * TIMESTEP. -/
noncomputable def velX (self : Planet) (planets : List Planet) : FP :=
  self.x_vel.add (((accumulate self planets).1.div self.mass).mul (FP.num TIMESTEP))

/-- The y-velocity committed by update_position. -/
noncomputable def velY (self : Planet) (planets : List Planet) : FP :=
  self.y_vel.add (((accumulate self planets).2.1.div self.mass).mul (FP.num TIMESTEP))

/-- The tentative new x-position: x_vel.mul_add(TIMESTEP, x) with the
already-updated velocity. -/
noncomputable def newX (self : Planet) (planets : List Planet) : FP :=
  (velX self planets).mulAdd (FP.num TIMESTEP) self.x

/-- The tentative new y-position. -/
noncomputable def newY (self : Planet) (planets : List Planet) : FP :=
  (velY self planets).mulAdd (FP.num TIMESTEP) self.y

/-- Scenario split of update_position, case 1: the updated velocity is
non-finite.  The function returns right after committing distance_to_sun
and the velocities; position and orbit are untouched. -/
theorem update_position_velocity_bad (self : Planet) (planets : List Planet)
    (h : (!(velX self planets).isFinite || !(velY self planets).isFinite) = true) :
    update_position self planets =
      { self with distance_to_sun := (accumulate self planets).2.2,
                  x_vel := velX self planets, y_vel := velY self planets } := by
  simp only [update_position, velX, velY] at h ⊢
  rw [if_pos h]

/-- Scenario split of update_position, case 2: the updated velocity is
finite but the tentative position is not.  The position stays, the velocity
update stands, and the CURRENT (unchanged) position is pushed onto the
orbit. -/
theorem update_position_position_bad (self : Planet) (planets : List Planet)
    (hv : (!(velX self planets).isFinite || !(velY self planets).isFinite) = false)
    (hp : ((newX self planets).isFinite && (newY self planets).isFinite) = false) :
    update_position self planets =
      { self with distance_to_sun := (accumulate self planets).2.2,
                  x_vel := velX self planets, y_vel := velY self planets,
                  orbit := self.orbit ++ [(self.x, self.y)] } := by
  simp only [update_position, velX, velY, newX, newY] at hv hp ⊢
  rw [hv, hp]
  rfl

/-- Scenario split of update_position, case 3: velocity and tentative
position both finite.  Everything is committed and the new position is
pushed onto the orbit. -/
theorem update_position_ok (self : Planet) (planets : List Planet)
    (hv : (!(velX self planets).isFinite || !(velY self planets).isFinite) = false)
    (hp : ((newX self planets).isFinite && (newY self planets).isFinite) = true) :
    update_position self planets =
      { self with distance_to_sun := (accumulate self planets).2.2,
                  x_vel := velX self planets, y_vel := velY self planets,
                  x := newX self planets, y := newY self planets,
                  orbit := self.orbit ++ [(newX self planets, newY self planets)] } := by
  simp only [update_position, velX, velY, newX, newY] at hv hp ⊢
  rw [hv, hp]
  rfl

/-- A body with NaN x-velocity and otherwise benign finite state. -/
def nBody : Planet :=
  { x := FP.num 0, y := FP.num 0, radius := FP.num 1, color := 0,
    mass := FP.num 1, orbit := [], sun := false, distance_to_sun := FP.num 0,
    x_vel := FP.nan, y_vel := FP.num 0 }

/-- A body whose x-position is already infinite while its velocity is
finite: after a step its velocity stays finite but the tentative new
position is infinite. -/
def cBody : Planet :=
  { x := FP.inf, y := FP.num 0, radius := FP.num 1, color := 0,
    mass := FP.num 1, orbit := [], sun := false, distance_to_sun := FP.num 0,
    x_vel := FP.num 0, y_vel := FP.num 0 }

/-- C4: for every body whose velocity after the force accumulation and
velocity update is non-finite, the step performs no position update and no
trail append: position and trail are exactly as at entry. -/
theorem c4_velocity_degenerate_freezes_position (self : Planet) (planets : List Planet)
    (h : (velX self planets).isFinite = false ∨ (velY self planets).isFinite = false) :
    (update_position self planets).x = self.x ∧
    (update_position self planets).y = self.y ∧
    (update_position self planets).orbit = self.orbit := by
  have hb : (!(velX self planets).isFinite || !(velY self planets).isFinite) = true := by
    rcases h with h | h <;> simp [h]
  rw [update_position_velocity_bad self planets hb]
  exact ⟨rfl, rfl, rfl⟩

/-- Witness for C4: a body entering with NaN x-velocity and no other
bodies. -/
theorem c4_velocity_degenerate_freezes_position_witness :
    ((velX nBody []).isFinite = false ∨ (velY nBody []).isFinite = false) ∧
    ((update_position nBody []).x = nBody.x ∧
     (update_position nBody []).y = nBody.y ∧
     (update_position nBody []).orbit = nBody.orbit) :=
  ⟨Or.inl (by simp [velX, nBody]),
   c4_velocity_degenerate_freezes_position nBody []
     (Or.inl (by simp [velX, nBody]))⟩

/-- C10: when the updated velocity is non-finite it is nevertheless
committed to the body's state, not rolled back: the stored velocities are
exactly the computed (non-finite) values, so the next step starts from
them. -/
theorem c10_nonfinite_velocity_committed (self : Planet) (planets : List Planet)
    (h : (velX self planets).isFinite = false ∨ (velY self planets).isFinite = false) :
    (update_position self planets).x_vel = velX self planets ∧
    (update_position self planets).y_vel = velY self planets ∧
    ((update_position self planets).x_vel.isFinite = false ∨
     (update_position self planets).y_vel.isFinite = false) := by
  have hb : (!(velX self planets).isFinite || !(velY self planets).isFinite) = true := by
    rcases h with h | h <;> simp [h]
  rw [update_position_velocity_bad self planets hb]
  exact ⟨rfl, rfl, h⟩

/-- Witness for C10: the NaN-velocity body again; the committed x_vel is
the computed NaN. -/
theorem c10_nonfinite_velocity_committed_witness :
    ((velX nBody []).isFinite = false ∨ (velY nBody []).isFinite = false) ∧
    ((update_position nBody []).x_vel = velX nBody [] ∧
     (update_position nBody []).y_vel = velY nBody [] ∧
     ((update_position nBody []).x_vel.isFinite = false ∨
      (update_position nBody []).y_vel.isFinite = false)) :=
  ⟨Or.inl (by simp [velX, nBody]),
   c10_nonfinite_velocity_committed nBody []
     (Or.inl (by simp [velX, nBody]))⟩

/-- C3, amended: when the updated velocity is finite but the tentative new
position is non-finite, the position is left unchanged and the velocity
update stands — but the trail is NOT left unchanged: the body's current
(old) position is appended to it, because the push in the source is outside
the finiteness branch. -/
theorem c3_position_degenerate_freezes_position (self : Planet) (planets : List Planet)
    (hv : (!(velX self planets).isFinite || !(velY self planets).isFinite) = false)
    (hp : ((newX self planets).isFinite && (newY self planets).isFinite) = false) :
    (update_position self planets).x = self.x ∧
    (update_position self planets).y = self.y ∧
    (update_position self planets).x_vel = velX self planets ∧
    (update_position self planets).y_vel = velY self planets ∧
    (update_position self planets).orbit = self.orbit ++ [(self.x, self.y)] := by
  rw [update_position_position_bad self planets hv hp]
  exact ⟨rfl, rfl, rfl, rfl, rfl⟩

/-- Witness for the amended C3: the infinite-position body cBody. -/
theorem c3_position_degenerate_freezes_position_witness :
    ((!(velX cBody []).isFinite || !(velY cBody []).isFinite) = false ∧
     ((newX cBody []).isFinite && (newY cBody []).isFinite) = false) ∧
    ((update_position cBody []).x = cBody.x ∧
     (update_position cBody []).y = cBody.y ∧
     (update_position cBody []).x_vel = velX cBody [] ∧
     (update_position cBody []).y_vel = velY cBody [] ∧
     (update_position cBody []).orbit = cBody.orbit ++ [(cBody.x, cBody.y)]) :=
  ⟨⟨by simp [velX, velY, cBody, accumulate, FP.div_num],
    by simp [newX, velX, cBody, accumulate, FP.div_num, FP.mulAdd]⟩,
   c3_position_degenerate_freezes_position cBody []
     (by simp [velX, velY, cBody, accumulate, FP.div_num])
     (by simp [newX, velX, cBody, accumulate, FP.div_num, FP.mulAdd])⟩

/-- Counterexample to C3 as stated: for cBody (finite velocity, infinite
entry x so the tentative new position is non-finite), the step does append
an entry to the trail, so the trail is not left unchanged. -/
theorem c3_counterexample :
    ((velX cBody []).isFinite = true ∧ (velY cBody []).isFinite = true) ∧
    (update_position cBody []).x = cBody.x ∧
    (update_position cBody []).orbit ≠ cBody.orbit := by
  have hv : (!(velX cBody []).isFinite || !(velY cBody []).isFinite) = false := by
    simp [velX, velY, cBody, accumulate, FP.div_num]
  have hp : ((newX cBody []).isFinite && (newY cBody []).isFinite) = false := by
    simp [newX, velX, cBody, accumulate, FP.div_num, FP.mulAdd]
  have h := update_position_position_bad cBody [] hv hp
  refine ⟨⟨?_, ?_⟩, ?_, ?_⟩
  · simp [velX, cBody, accumulate, FP.div_num]
  · simp [velY, cBody, accumulate, FP.div_num]
  · rw [h]
  · rw [h]
    simp [cBody]

/-- C2: for every body whose accumulated force and resulting state stay
finite, one step updates velocity first (velocity += total_F / mass * dt)
and then position from the already-updated velocity
(new_pos = pos + velocity * dt), with dt = TIMESTEP = 86400 s. -/
theorem c2_semi_implicit_euler (self : Planet) (planets : List Planet)
    (x y vx vy m tfx tfy : ℝ) (d : FP)
    (hx : self.x = FP.num x) (hy : self.y = FP.num y)
    (hvx : self.x_vel = FP.num vx) (hvy : self.y_vel = FP.num vy)
    (hm : self.mass = FP.num m) (hm0 : m ≠ 0)
    (hacc : accumulate self planets = (FP.num tfx, FP.num tfy, d)) :
    (update_position self planets).x_vel = FP.num (vx + tfx / m * TIMESTEP) ∧
    (update_position self planets).y_vel = FP.num (vy + tfy / m * TIMESTEP) ∧
    (update_position self planets).x =
      FP.num (x + (vx + tfx / m * TIMESTEP) * TIMESTEP) ∧
    (update_position self planets).y =
      FP.num (y + (vy + tfy / m * TIMESTEP) * TIMESTEP) := by
  have hvelx : velX self planets = FP.num (vx + tfx / m * TIMESTEP) := by
    simp only [velX, hacc, hvx, hm]
    rw [FP.div_num hm0, FP.mul_num, FP.add_num]
  have hvely : velY self planets = FP.num (vy + tfy / m * TIMESTEP) := by
    simp only [velY, hacc, hvy, hm]
    rw [FP.div_num hm0, FP.mul_num, FP.add_num]
  have hnx : newX self planets =
      FP.num ((vx + tfx / m * TIMESTEP) * TIMESTEP + x) := by
    simp only [newX, hvelx, hx, FP.mulAdd_num]
  have hny : newY self planets =
      FP.num ((vy + tfy / m * TIMESTEP) * TIMESTEP + y) := by
    simp only [newY, hvely, hy, FP.mulAdd_num]
  have hv : (!(velX self planets).isFinite || !(velY self planets).isFinite) = false := by
    simp [hvelx, hvely]
  have hp : ((newX self planets).isFinite && (newY self planets).isFinite) = true := by
    simp [hnx, hny]
  rw [update_position_ok self planets hv hp]
  refine ⟨hvelx, hvely, ?_, ?_⟩
  · show newX self planets = _
    rw [hnx]
    exact congrArg FP.num (by ring)
  · show newY self planets = _
    rw [hny]
    exact congrArg FP.num (by ring)

/-- The anchor of the canonical regression fixture: mass 1.989e30 kg at the
origin, flagged as the sun. -/
noncomputable def sunW : Planet :=
  { x := FP.num 0, y := FP.num 0, radius := FP.num 30, color := 16776960,
    mass := FP.num 1.989e30, orbit := [], sun := true,
    distance_to_sun := FP.num 0, x_vel := FP.num 0, y_vel := FP.num 0 }

/-- The orbiting body of the canonical regression fixture: mass 5.9742e24 kg
at x = -1.496e11, y = 0, with y-velocity 29783 m/s. -/
noncomputable def earthW : Planet :=
  { x := FP.num (-1.496e11), y := FP.num 0, radius := FP.num 16, color := 6591981,
    mass := FP.num 5.9742e24, orbit := [], sun := false,
    distance_to_sun := FP.num 0, x_vel := FP.num 0, y_vel := FP.num 29783 }

/-- The polar angle of the fixture displacement from the orbiting body to
the anchor. -/
noncomputable def wTheta : ℝ := atan2R ((0 : ℝ) - 0) ((0 : ℝ) - -1.496e11)

/-- The softened distance of the fixture pair. -/
noncomputable def wDist : ℝ :=
  Real.sqrt (((0 : ℝ) - -1.496e11) * ((0 : ℝ) - -1.496e11) +
    ((0 : ℝ) - 0) * ((0 : ℝ) - 0) + SOFTENING_FACTOR * SOFTENING_FACTOR)

/-- The scalar force magnitude of the fixture pair. -/
noncomputable def wF : ℝ := G * 5.9742e24 * 1.989e30 / wDist ^ 2

theorem fixture_force :
    calculate_force earthW sunW =
      (FP.num (Real.cos wTheta * wF), FP.num (Real.sin wTheta * wF),
       FP.num wDist) := by
  rw [calculate_force_num earthW sunW (-1.496e11) 0 5.9742e24 0 0 1.989e30
    rfl rfl rfl rfl rfl rfl]
  rfl

theorem fixture_accumulate :
    accumulate earthW [sunW] =
      (FP.num (0 + Real.cos wTheta * wF), FP.num (0 + Real.sin wTheta * wF),
       FP.num wDist) := by
  simp only [accumulate, List.foldl_cons, List.foldl_nil, accumStep, fixture_force]
  simp [sunW]

/-- Witness for C2: the canonical two-body fixture; after one step the
orbiting body's velocity and position match the semi-implicit Euler
formulas exactly. -/
theorem c2_semi_implicit_euler_witness :
    ((5.9742e24 : ℝ) ≠ 0 ∧
     accumulate earthW [sunW] =
       (FP.num (0 + Real.cos wTheta * wF), FP.num (0 + Real.sin wTheta * wF),
        FP.num wDist)) ∧
    ((update_position earthW [sunW]).x_vel =
       FP.num (0 + (0 + Real.cos wTheta * wF) / 5.9742e24 * TIMESTEP) ∧
     (update_position earthW [sunW]).y_vel =
       FP.num (29783 + (0 + Real.sin wTheta * wF) / 5.9742e24 * TIMESTEP) ∧
     (update_position earthW [sunW]).x =
       FP.num (-1.496e11 +
         (0 + (0 + Real.cos wTheta * wF) / 5.9742e24 * TIMESTEP) * TIMESTEP) ∧
     (update_position earthW [sunW]).y =
       FP.num (0 +
         (29783 + (0 + Real.sin wTheta * wF) / 5.9742e24 * TIMESTEP) * TIMESTEP)) :=
  ⟨⟨by norm_num, fixture_accumulate⟩,
   c2_semi_implicit_euler earthW [sunW] (-1.496e11) 0 0 29783 5.9742e24
     (0 + Real.cos wTheta * wF) (0 + Real.sin wTheta * wF) (FP.num wDist)
     rfl rfl rfl rfl rfl (by norm_num) fixture_accumulate⟩

/-- The effect of one loop iteration on distance_to_sun alone: overwritten
with this pair's distance when the other body is the sun and the pair is
not discarded, untouched otherwise. -/
noncomputable def dtsStep (self : Planet) (d : FP) (other : Planet) : FP :=
  if (calculate_force self other).1.isFinite && (calculate_force self other).2.1.isFinite then
    (if other.sun then (calculate_force self other).2.2 else d)
  else d

theorem accum_third (self : Planet) (l : List Planet) (init : FP × FP × FP) :
    (l.foldl (accumStep self) init).2.2 = l.foldl (dtsStep self) init.2.2 := by
  induction l generalizing init with
  | nil => rfl
  | cons a l ih =>
    simp only [List.foldl_cons]
    rw [ih]
    congr 1
    simp only [accumStep, dtsStep]
    by_cases hc :
      ((calculate_force self a).1.isFinite && (calculate_force self a).2.1.isFinite) = true
    · rw [if_pos hc, if_pos hc]
    · rw [if_neg hc, if_neg hc]

theorem dts_fold_skip (self : Planet) (l : List Planet) (d : FP)
    (h : ∀ k ∈ l, k.sun = false ∨
      ((calculate_force self k).1.isFinite && (calculate_force self k).2.1.isFinite) = false) :
    l.foldl (dtsStep self) d = d := by
  induction l generalizing d with
  | nil => rfl
  | cons a l ih =>
    have ha := h a (List.mem_cons_self a l)
    have hstep : dtsStep self d a = d := by
      rcases ha with ha | ha
      · simp [dtsStep, ha]
      · simp [dtsStep, ha]
    rw [List.foldl_cons, hstep]
    exact ih d (fun k hk => h k (List.mem_cons_of_mem a hk))

/-- update_position always commits the distance_to_sun accumulated by the
force loop, in every scenario (it is written before the early return). -/
theorem update_position_dts (self : Planet) (planets : List Planet) :
    (update_position self planets).distance_to_sun = (accumulate self planets).2.2 := by
  by_cases hv : (!(velX self planets).isFinite || !(velY self planets).isFinite) = true
  · rw [update_position_velocity_bad self planets hv]
  · have hv' := eq_false_of_ne_true hv
    by_cases hp : ((newX self planets).isFinite && (newY self planets).isFinite) = true
    · rw [update_position_ok self planets hv' hp]
    · rw [update_position_position_bad self planets hv' (eq_false_of_ne_true hp)]

/-- C5: during a step, whenever a body j flagged as anchor is processed for
body i and the pair's force is not discarded, i's distance_to_anchor ends
the step as the softened distance of that pair (last valid anchor wins);
in particular, a body at (x, 0) with zero velocity, whose only neighbor is
an anchor at the origin, ends the step with distance_to_anchor =
sqrt(x^2 + s^2). -/
theorem c5_anchor_distance :
    (∀ (self j : Planet) (l1 l2 : List Planet),
      j.sun = true →
      ((calculate_force self j).1.isFinite && (calculate_force self j).2.1.isFinite) = true →
      (∀ k ∈ l2, k.sun = false ∨
        ((calculate_force self k).1.isFinite &&
          (calculate_force self k).2.1.isFinite) = false) →
      (update_position self (l1 ++ j :: l2)).distance_to_sun =
        (calculate_force self j).2.2) ∧
    (∀ (x m M : ℝ) (self anchor : Planet),
      self.x = FP.num x → self.y = FP.num 0 →
      self.x_vel = FP.num 0 → self.y_vel = FP.num 0 → self.mass = FP.num m →
      anchor.x = FP.num 0 → anchor.y = FP.num 0 → anchor.mass = FP.num M →
      anchor.sun = true →
      (update_position self [anchor]).distance_to_sun =
        FP.num (Real.sqrt (x ^ 2 + SOFTENING_FACTOR ^ 2))) := by
  have hgen : ∀ (self j : Planet) (l1 l2 : List Planet),
      j.sun = true →
      ((calculate_force self j).1.isFinite && (calculate_force self j).2.1.isFinite) = true →
      (∀ k ∈ l2, k.sun = false ∨
        ((calculate_force self k).1.isFinite &&
          (calculate_force self k).2.1.isFinite) = false) →
      (update_position self (l1 ++ j :: l2)).distance_to_sun =
        (calculate_force self j).2.2 := by
    intro self j l1 l2 hsun hfin hl2
    rw [update_position_dts, accumulate, accum_third, List.foldl_append,
      List.foldl_cons]
    have hj : dtsStep self (l1.foldl (dtsStep self)
        (FP.num 0, FP.num 0, self.distance_to_sun).2.2) j =
        (calculate_force self j).2.2 := by
      simp [dtsStep, hfin, hsun]
    rw [hj]
    exact dts_fold_skip self l2 _ hl2
  refine ⟨hgen, ?_⟩
  intro x m M self anchor hx hy hvx hvy hm hax hay ham hasun
  have hcf := calculate_force_num self anchor x 0 m 0 0 M hx hy hm hax hay ham
  have hfin : ((calculate_force self anchor).1.isFinite &&
      (calculate_force self anchor).2.1.isFinite) = true := by
    rw [hcf]
    rfl
  have h := hgen self anchor [] [] hasun hfin (by intro k hk; cases hk)
  rw [List.nil_append] at h
  rw [h, hcf]
  refine congrArg FP.num (congrArg Real.sqrt ?_)
  ring

/-- A concrete test body at (7, 0) with zero velocity and mass 2. -/
noncomputable def pE : Planet :=
  { x := FP.num 7, y := FP.num 0, radius := FP.num 1, color := 3,
    mass := FP.num 2, orbit := [], sun := false, distance_to_sun := FP.num 0,
    x_vel := FP.num 0, y_vel := FP.num 0 }

/-- Witness for C5: the body pE at (7, 0) with the fixture anchor at the
origin; after one step its distance_to_anchor is sqrt(7^2 + s^2). -/
theorem c5_anchor_distance_witness :
    (pE.x = FP.num 7 ∧ pE.y = FP.num 0 ∧ pE.x_vel = FP.num 0 ∧
     pE.y_vel = FP.num 0 ∧ sunW.x = FP.num 0 ∧ sunW.y = FP.num 0 ∧
     sunW.sun = true) ∧
    (update_position pE [sunW]).distance_to_sun =
      FP.num (Real.sqrt (7 ^ 2 + SOFTENING_FACTOR ^ 2)) :=
  ⟨⟨rfl, rfl, rfl, rfl, rfl, rfl, rfl⟩,
   c5_anchor_distance.2 7 2 1.989e30 pE sunW rfl rfl rfl rfl rfl rfl rfl rfl rfl⟩

/-- The fields of another body that the force loop reads: position, mass
and the sun flag.  Velocities, trail, radius and color of the others are
never read. -/
def forceView (p : Planet) : FP × FP × FP × Bool := (p.x, p.y, p.mass, p.sun)

theorem calculate_force_congr (self : Planet) {o o' : Planet}
    (hx : o.x = o'.x) (hy : o.y = o'.y) (hm : o.mass = o'.mass) :
    calculate_force self o = calculate_force self o' := by
  simp only [calculate_force, hx, hy, hm]

theorem accumStep_congr (self : Planet) (acc : FP × FP × FP) {o o' : Planet}
    (h : forceView o = forceView o') :
    accumStep self acc o = accumStep self acc o' := by
  have hx : o.x = o'.x := congrArg (fun t => t.1) h
  have hy : o.y = o'.y := congrArg (fun t => t.2.1) h
  have hm : o.mass = o'.mass := congrArg (fun t => t.2.2.1) h
  have hs : o.sun = o'.sun := congrArg (fun t => t.2.2.2) h
  simp only [accumStep, calculate_force_congr self hx hy hm, hs]

theorem accumulate_congr (self : Planet) {l l' : List Planet}
    (h : List.Forall₂ (fun a b => forceView a = forceView b) l l') :
    accumulate self l = accumulate self l' := by
  unfold accumulate
  suffices hall : ∀ init : FP × FP × FP,
      l.foldl (accumStep self) init = l'.foldl (accumStep self) init from hall _
  induction h with
  | nil => intro init; rfl
  | cons hab htl ih =>
    intro init
    rw [List.foldl_cons, List.foldl_cons, accumStep_congr self init hab]
    exact ih _

theorem update_position_congr (self : Planet) {l l' : List Planet}
    (h : List.Forall₂ (fun a b => forceView a = forceView b) l l') :
    update_position self l = update_position self l' := by
  have hacc := accumulate_congr self h
  simp only [update_position, hacc]

theorem othersOf_congr {ps qs : List Planet} (j : ℕ)
    (h : List.Forall₂ (fun a b => forceView a = forceView b) ps qs) :
    List.Forall₂ (fun a b => forceView a = forceView b)
      (othersOf ps j) (othersOf qs j) :=
  List.rel_append (List.forall₂_take j h) (List.forall₂_drop (j + 1) h)

theorem length_step (ps : List Planet) : (step ps).length = ps.length := by
  simp [step]

theorem step_getElem? (ps : List Planet) (j : ℕ) (hj : j < ps.length) :
    (step ps)[j]? = some (update_position (ps.getD j default) (othersOf ps j)) := by
  unfold step
  rw [List.getElem?_map, List.getElem?_range hj]
  rfl

/-- C9: a body's step result depends on the other bodies only through their
positions, masses and sun flags — never their velocities.  If two snapshots
agree everywhere except in the velocity fields of body A, every body other
than A produces an identical post-step state (and step, a total function,
cannot abort). -/
theorem c9_velocity_noninterference (ps qs : List Planet) (A : ℕ)
    (hlen : qs.length = ps.length)
    (hothers : ∀ k, k ≠ A → ps[k]? = qs[k]?)
    (hA : Option.map forceView ps[A]? = Option.map forceView qs[A]?) :
    ∀ j, j ≠ A → (step ps)[j]? = (step qs)[j]? := by
  have hview : List.Forall₂ (fun a b => forceView a = forceView b) ps qs := by
    rw [List.forall₂_iff_get]
    refine ⟨hlen.symm, ?_⟩
    intro i h1 h2
    by_cases hiA : i = A
    · subst hiA
      rw [List.getElem?_eq_getElem h1, List.getElem?_eq_getElem h2] at hA
      simpa using hA
    · have := hothers i hiA
      rw [List.getElem?_eq_getElem h1, List.getElem?_eq_getElem h2] at this
      simp only [Option.some.injEq] at this
      simp [List.get_eq_getElem, this]
  intro j hjA
  by_cases hj : j < ps.length
  · have hj' : j < qs.length := by omega
    rw [step_getElem? ps j hj, step_getElem? qs j hj']
    have hself : ps.getD j default = qs.getD j default := by
      rw [List.getD_eq_getElem?_getD, List.getD_eq_getElem?_getD, hothers j hjA]
    rw [hself, update_position_congr (qs.getD j default) (othersOf_congr j hview)]
  · have h1 : (step ps)[j]? = none :=
      List.getElem?_eq_none (by rw [length_step]; omega)
    have h2 : (step qs)[j]? = none :=
      List.getElem?_eq_none (by rw [length_step]; omega)
    rw [h1, h2]

/-- pB with its x-velocity replaced by NaN; positions, masses and flags
agree with pB. -/
def pBn : Planet :=
  { x := FP.num 3, y := FP.num 4, radius := FP.num 1, color := 1,
    mass := FP.num 3, orbit := [], sun := false, distance_to_sun := FP.num 0,
    x_vel := FP.nan, y_vel := FP.num 0 }

/-- Witness for C9: injecting a NaN velocity into pB leaves pA's step
result unchanged. -/
theorem c9_velocity_noninterference_witness :
    (([pA, pBn] : List Planet).length = ([pA, pB] : List Planet).length ∧
     (∀ k, k ≠ 1 → ([pA, pB] : List Planet)[k]? = ([pA, pBn] : List Planet)[k]?) ∧
     Option.map forceView ([pA, pB] : List Planet)[1]? =
       Option.map forceView ([pA, pBn] : List Planet)[1]?) ∧
    (step [pA, pB])[0]? = (step [pA, pBn])[0]? := by
  have hothers : ∀ k, k ≠ 1 → ([pA, pB] : List Planet)[k]? = ([pA, pBn] : List Planet)[k]? := by
    intro k hk
    match k with
    | 0 => rfl
    | 1 => exact absurd rfl hk
    | k + 2 => rfl
  refine ⟨⟨rfl, hothers, rfl⟩, ?_⟩
  exact c9_velocity_noninterference [pA, pB] [pA, pBn] 1 rfl hothers rfl 0
    (by decide)

theorem stepOrder_aux (ps : List Planet) :
    ∀ (order : List ℕ) (acc : List Planet),
    acc.length = ps.length →
    (∀ i ∈ order, acc[i]? = ps[i]?) →
    order.Nodup →
    (∀ i ∈ order, i < ps.length) →
    ∀ j,
    (order.foldl
      (fun a i => a.set i (update_position (a.getD i default) (othersOf ps i))) acc)[j]?
      = if j ∈ order then some (update_position (ps.getD j default) (othersOf ps j))
        else acc[j]? := by
  intro order
  induction order with
  | nil =>
    intro acc _ _ _ _ j
    simp
  | cons i rest ih =>
    intro acc hlen hagree hnd hlt j
    rw [List.foldl_cons]
    have hilt : i < ps.length := hlt i (List.mem_cons_self i rest)
    have hiacc : acc.getD i default = ps.getD i default := by
      rw [List.getD_eq_getElem?_getD, List.getD_eq_getElem?_getD,
        hagree i (List.mem_cons_self i rest)]
    rw [hiacc]
    have hnd' : rest.Nodup := (List.nodup_cons.mp hnd).2
    have hni : i ∉ rest := (List.nodup_cons.mp hnd).1
    have hlen' :
        (acc.set i (update_position (ps.getD i default) (othersOf ps i))).length =
        ps.length := by
      rw [List.length_set]
      exact hlen
    have hagree' : ∀ k ∈ rest,
        (acc.set i (update_position (ps.getD i default) (othersOf ps i)))[k]? = ps[k]? := by
      intro k hk
      have hki : i ≠ k := fun he => hni (he ▸ hk)
      rw [List.getElem?_set_ne hki]
      exact hagree k (List.mem_cons_of_mem i hk)
    rw [ih _ hlen' hagree' hnd' (fun k hk => hlt k (List.mem_cons_of_mem i hk)) j]
    by_cases hjr : j ∈ rest
    · rw [if_pos hjr, if_pos (List.mem_cons_of_mem i hjr)]
    · rw [if_neg hjr]
      by_cases hji : j = i
      · subst hji
        rw [if_pos (List.mem_cons_self j rest)]
        exact List.getElem?_set_self (hlen ▸ hilt)
      · have hnotin : j ∉ i :: rest := by
          rw [List.mem_cons]
          rintro (hc | hc)
          · exact hji hc
          · exact hjr hc
        rw [if_neg hnotin]
        exact List.getElem?_set_ne (fun he => hji he.symm)

/-- C7: each body's post-step state is a function only of its own entry
state and the entry snapshot of the other bodies, so processing the bodies
in any permuted index order yields exactly the same list of post-step
states as the program's increasing-order loop. -/
theorem c7_order_irrelevance (ps : List Planet) (order : List ℕ)
    (h : order.Perm (List.range ps.length)) :
    stepOrder ps order = step ps := by
  have hnd : order.Nodup := h.nodup_iff.mpr (List.nodup_range ps.length)
  have hmem : ∀ i, i ∈ order ↔ i < ps.length := fun i => by
    rw [h.mem_iff, List.mem_range]
  apply List.ext_getElem?
  intro j
  have haux := stepOrder_aux ps order ps rfl (fun i _ => rfl) hnd
    (fun i hi => (hmem i).mp hi) j
  unfold stepOrder
  rw [haux]
  by_cases hj : j < ps.length
  · rw [if_pos ((hmem j).mpr hj), step_getElem? ps j hj]
  · rw [if_neg (fun hc => hj ((hmem j).mp hc)),
      List.getElem?_eq_none (by omega : ps.length ≤ j),
      List.getElem?_eq_none (by rw [length_step]; omega)]

/-- Witness for C7: the two-body list processed in reversed order [1, 0]
gives the same result as the program's order. -/
theorem c7_order_irrelevance_witness :
    (([1, 0] : List ℕ).Perm (List.range ([pA, pB] : List Planet).length)) ∧
    stepOrder [pA, pB] [1, 0] = step [pA, pB] :=
  ⟨by decide, c7_order_irrelevance [pA, pB] [1, 0] (by decide)⟩

theorem accumulate_num (self : Planet) (l : List Planet)
    (hself : finitePlanet self) (hl : ∀ p ∈ l, finitePlanet p) :
    ∃ a b, (accumulate self l).1 = FP.num a ∧ (accumulate self l).2.1 = FP.num b := by
  obtain ⟨⟨xs, hxs⟩, ⟨ys, hys⟩, _, _, ⟨ms, hms, _⟩⟩ := hself
  unfold accumulate
  suffices hgen : ∀ (l' : List Planet) (init : FP × FP × FP) (a0 b0 : ℝ),
      (∀ p ∈ l', finitePlanet p) → init.1 = FP.num a0 → init.2.1 = FP.num b0 →
      ∃ a b, (l'.foldl (accumStep self) init).1 = FP.num a ∧
        (l'.foldl (accumStep self) init).2.1 = FP.num b by
    exact hgen l _ 0 0 hl rfl rfl
  intro l'
  induction l' with
  | nil =>
    intro init a0 b0 _ h1 h2
    exact ⟨a0, b0, h1, h2⟩
  | cons p tl ih =>
    intro init a0 b0 hl' h1 h2
    obtain ⟨⟨xp, hxp⟩, ⟨yp, hyp⟩, _, _, ⟨mp, hmp, _⟩⟩ :=
      hl' p (List.mem_cons_self p tl)
    have hcf := calculate_force_num self p xs ys ms xp yp mp hxs hys hms hxp hyp hmp
    have hstep : accumStep self init p =
        (FP.num (a0 + Real.cos (atan2R (yp - ys) (xp - xs)) *
            (G * ms * mp /
              (Real.sqrt ((xp - xs) * (xp - xs) + (yp - ys) * (yp - ys) +
                SOFTENING_FACTOR * SOFTENING_FACTOR) ^ 2))),
         FP.num (b0 + Real.sin (atan2R (yp - ys) (xp - xs)) *
            (G * ms * mp /
              (Real.sqrt ((xp - xs) * (xp - xs) + (yp - ys) * (yp - ys) +
                SOFTENING_FACTOR * SOFTENING_FACTOR) ^ 2))),
         if p.sun then
           FP.num (Real.sqrt ((xp - xs) * (xp - xs) + (yp - ys) * (yp - ys) +
             SOFTENING_FACTOR * SOFTENING_FACTOR))
         else init.2.2) := by
      simp only [accumStep, hcf, h1, h2]
      rfl
    rw [List.foldl_cons, hstep]
    exact ih _ _ _ (fun q hq => hl' q (List.mem_cons_of_mem p hq)) rfl rfl

/-- With a finite body and finite neighbors nothing degenerates: the whole
update commits, the body stays finite, and exactly its new position is
appended to its orbit. -/
theorem update_position_finite (self : Planet) (planets : List Planet)
    (hself : finitePlanet self) (hpl : ∀ p ∈ planets, finitePlanet p) :
    finitePlanet (update_position self planets) ∧
    (update_position self planets).orbit =
      self.orbit ++
        [((update_position self planets).x, (update_position self planets).y)] := by
  obtain ⟨a, b, ha, hb⟩ := accumulate_num self planets hself hpl
  obtain ⟨⟨xs, hxs⟩, ⟨ys, hys⟩, ⟨vxs, hvxs⟩, ⟨vys, hvys⟩, ⟨ms, hms, hms0⟩⟩ := hself
  have hvx : velX self planets = FP.num (vxs + a / ms * TIMESTEP) := by
    rw [velX, ha, hvxs, hms, FP.div_num hms0, FP.mul_num, FP.add_num]
  have hvy : velY self planets = FP.num (vys + b / ms * TIMESTEP) := by
    rw [velY, hb, hvys, hms, FP.div_num hms0, FP.mul_num, FP.add_num]
  have hnx : newX self planets =
      FP.num ((vxs + a / ms * TIMESTEP) * TIMESTEP + xs) := by
    rw [newX, hvx, hxs, FP.mulAdd_num]
  have hny : newY self planets =
      FP.num ((vys + b / ms * TIMESTEP) * TIMESTEP + ys) := by
    rw [newY, hvy, hys, FP.mulAdd_num]
  have hv : (!(velX self planets).isFinite || !(velY self planets).isFinite) = false := by
    simp [hvx, hvy]
  have hp : ((newX self planets).isFinite && (newY self planets).isFinite) = true := by
    simp [hnx, hny]
  rw [update_position_ok self planets hv hp]
  exact ⟨⟨⟨_, hnx⟩, ⟨_, hny⟩, ⟨_, hvx⟩, ⟨_, hvy⟩, ⟨ms, hms, hms0⟩⟩, rfl⟩

theorem getD_mem (ps : List Planet) (j : ℕ) (hj : j < ps.length) :
    ps.getD j default ∈ ps := by
  rw [List.getD_eq_getElem?_getD, List.getElem?_eq_getElem hj, Option.getD_some]
  exact List.getElem_mem hj

theorem othersOf_subset (ps : List Planet) (i : ℕ) :
    ∀ p ∈ othersOf ps i, p ∈ ps := by
  intro p hp
  rcases List.mem_append.mp hp with hp | hp
  · exact List.take_subset i ps hp
  · exact List.drop_subset (i + 1) ps hp

theorem allFinite_step (ps : List Planet) (h : allFinite ps) :
    allFinite (step ps) := by
  intro p hp
  unfold step at hp
  rw [List.mem_map] at hp
  obtain ⟨i, hi, rfl⟩ := hp
  rw [List.mem_range] at hi
  exact (update_position_finite (ps.getD i default) (othersOf ps i)
    (h _ (getD_mem ps i hi)) (fun q hq => h q (othersOf_subset ps i q hq))).1

theorem step_getD (ps : List Planet) (j : ℕ) (hj : j < ps.length) :
    (step ps).getD j default = update_position (ps.getD j default) (othersOf ps j) := by
  rw [List.getD_eq_getElem?_getD, step_getElem? ps j hj, Option.getD_some]

theorem length_stepN (n : ℕ) (ps : List Planet) :
    (stepN n ps).length = ps.length := by
  induction n with
  | zero => rfl
  | succ n ih => rw [stepN, length_step, ih]

theorem allFinite_stepN (n : ℕ) (ps : List Planet) (h : allFinite ps) :
    allFinite (stepN n ps) := by
  induction n with
  | zero => exact h
  | succ n ih => exact allFinite_step (stepN n ps) ih

/-- C6: over any run of n steps of an all-finite system (no degeneracy),
each body's trail ends as its starting trail — unchanged, in order —
followed by exactly one new entry per step, each being the position
committed by that step; in particular the length grows by exactly n. -/
theorem c6_trail_append_only (n : ℕ) (ps : List Planet) (i : ℕ)
    (hfin : allFinite ps) (hi : i < ps.length) :
    ((stepN n ps).getD i default).orbit =
      (ps.getD i default).orbit ++
        (List.range n).map (fun k =>
          (((stepN (k + 1) ps).getD i default).x,
           ((stepN (k + 1) ps).getD i default).y)) ∧
    ((stepN n ps).getD i default).orbit.length =
      (ps.getD i default).orbit.length + n := by
  have main : ((stepN n ps).getD i default).orbit =
      (ps.getD i default).orbit ++
        (List.range n).map (fun k =>
          (((stepN (k + 1) ps).getD i default).x,
           ((stepN (k + 1) ps).getD i default).y)) := by
    induction n with
    | zero => simp [stepN]
    | succ n ih =>
      have hfin' : allFinite (stepN n ps) := allFinite_stepN n ps hfin
      have hlen : i < (stepN n ps).length := by
        rw [length_stepN]
        exact hi
      have hstep : stepN (n + 1) ps = step (stepN n ps) := rfl
      have hre : update_position ((stepN n ps).getD i default)
          (othersOf (stepN n ps) i) = (stepN (n + 1) ps).getD i default := by
        rw [hstep, step_getD (stepN n ps) i hlen]
      have hupd := update_position_finite ((stepN n ps).getD i default)
        (othersOf (stepN n ps) i) (hfin' _ (getD_mem _ i hlen))
        (fun q hq => hfin' q (othersOf_subset (stepN n ps) i q hq))
      rw [hstep, step_getD (stepN n ps) i hlen, hupd.2, hre, ih,
        List.range_succ, List.map_append, List.append_assoc]
      rfl
  refine ⟨main, ?_⟩
  rw [main, List.length_append, List.length_map, List.length_range]

/-- Witness for C6: one step of the finite two-body system [pA, pB],
watching body 0. -/
theorem c6_trail_append_only_witness :
    (allFinite [pA, pB] ∧ (0 : ℕ) < ([pA, pB] : List Planet).length) ∧
    (((stepN 1 [pA, pB]).getD 0 default).orbit =
      (([pA, pB] : List Planet).getD 0 default).orbit ++
        (List.range 1).map (fun k =>
          (((stepN (k + 1) [pA, pB]).getD 0 default).x,
           ((stepN (k + 1) [pA, pB]).getD 0 default).y)) ∧
     ((stepN 1 [pA, pB]).getD 0 default).orbit.length =
      (([pA, pB] : List Planet).getD 0 default).orbit.length + 1) := by
  have hfin : allFinite [pA, pB] := by
    intro p hp
    rcases List.mem_cons.mp hp with rfl | hp
    · exact ⟨⟨0, rfl⟩, ⟨0, rfl⟩, ⟨0, rfl⟩, ⟨0, rfl⟩, ⟨2, rfl, by norm_num⟩⟩
    rcases List.mem_cons.mp hp with rfl | hp
    · exact ⟨⟨3, rfl⟩, ⟨4, rfl⟩, ⟨0, rfl⟩, ⟨0, rfl⟩, ⟨3, rfl, by norm_num⟩⟩
    · cases hp
  exact ⟨⟨hfin, by norm_num⟩, c6_trail_append_only 1 [pA, pB] 0 hfin (by norm_num)⟩

end PlanetSim
